import Mathlib

/-!
Verification of the connection-spec resolver and command allow-list validator
of the proxmox LLM controller (`controller/app.py`).

Strings are modelled as `List Char` (Python `str` is a sequence of code
points).  Fallible operations return `Except`/`Option`.  Environment lookups
and the filesystem-existence probe are passed in explicitly as functions.
-/

set_option maxRecDepth 100000

namespace Controller

/-- Characters removed by Python `str.strip()` (ASCII whitespace; the rare
non-ASCII Unicode space code points are not modelled, none of the inputs in
this development contain them). -/
def pyWs (c : Char) : Bool :=
  c = ' ' ∨ c = '\t' ∨ c = '\n' ∨ c = '\r' ∨ c = '\x0b' ∨ c = '\x0c'

/-- Python `s.strip()`: remove leading and trailing whitespace. -/
def pyStrip (l : List Char) : List Char :=
  (l.dropWhile pyWs).rdropWhile pyWs

/-- Character list of a Lean string literal. -/
def strL (s : String) : List Char := s.data

/-- The backtick character. -/
def backtick : Char := Char.ofNat 96

/-- Auxiliary scan for `re.search(r"(?<!&)&(?!&)", s)` (`controller/app.py`
line 257): `prevAmp` records whether the previously read character was `&`.
Returns `true` iff some `&` has neither an `&` immediately before it nor an
`&` immediately after it. -/
def loneAmpAux : Bool → List Char → Bool
  | _, [] => false
  | prevAmp, c :: rest =>
    if c = '&' ∧ prevAmp = false ∧ rest.head? ≠ some '&' then true
    else loneAmpAux (c = '&') rest

/-- Whether the string contains a `&` that is not part of a doubled `&&`. -/
def hasLoneAmp (l : List Char) : Bool := loneAmpAux false l

/-- Characters on which `shlex` splits words (`shlex.whitespace` is
`" \t\r\n"`, a narrower set than `str.strip`'s whitespace). -/
def shWs (c : Char) : Bool :=
  c = ' ' ∨ c = '\t' ∨ c = '\r' ∨ c = '\n'

/-- Whether the string contains `&&` as a (contiguous) substring, i.e.
Python `"&&" in token`. -/
def containsAmpAmp : List Char → Bool
  | [] => false
  | c :: rest =>
    if c = '&' ∧ rest.head? = some '&' then true else containsAmpAmp rest

/-- Leading-match test: `isPre n h` iff `n` is an initial run of `h`. -/
def isPre : List Char → List Char → Bool
  | [], _ => true
  | _ :: _, [] => false
  | a :: as, b :: bs => a = b && isPre as bs

/-- Python substring test `n in h`. -/
def listContains (n : List Char) : List Char → Bool
  | [] => isPre n []
  | c :: rest => isPre n (c :: rest) || listContains n rest

/-- State of the `shlex` POSIX tokenizer (`shlex.split` with
`posix=True`, `whitespace_split=True`, comments disabled), as used by
`LXCExecSpec._validate_command` (`controller/app.py` line 261).
`escWord` is the escape state entered outside quotes, `escDquote` the escape
state entered inside double quotes. -/
inductive ShState where
  | space | word | squote | dquote | escWord | escDquote
deriving DecidableEq

/-- One pass of the `shlex` state machine.  `quoted` is the per-token flag
recording that a quote was opened inside the current token (an empty quoted
token is still emitted), `tok` the token read so far, `acc` the tokens
emitted so far.  Returns `none` on `ValueError` (unbalanced quote or
trailing escape). -/
def shlexRun : ShState → Bool → List Char → List (List Char) → List Char →
    Option (List (List Char))
  | st, quoted, tok, acc, [] =>
    match st with
    | .space => if tok ≠ [] ∨ quoted then some (acc ++ [tok]) else some acc
    | .word => if tok ≠ [] ∨ quoted then some (acc ++ [tok]) else some acc
    | _ => none
  | st, quoted, tok, acc, c :: rest =>
    match st with
    | .space =>
      if shWs c then
        if tok ≠ [] ∨ quoted then shlexRun .space false [] (acc ++ [tok]) rest
        else shlexRun .space quoted tok acc rest
      else if c = '\\' then shlexRun .escWord quoted tok acc rest
      else if c = '\'' then shlexRun .squote true tok acc rest
      else if c = '"' then shlexRun .dquote true tok acc rest
      else shlexRun .word quoted (tok ++ [c]) acc rest
    | .word =>
      if shWs c then
        if tok ≠ [] ∨ quoted then shlexRun .space false [] (acc ++ [tok]) rest
        else shlexRun .space quoted tok acc rest
      else if c = '\'' then shlexRun .squote true tok acc rest
      else if c = '"' then shlexRun .dquote true tok acc rest
      else if c = '\\' then shlexRun .escWord quoted tok acc rest
      else shlexRun .word quoted (tok ++ [c]) acc rest
    | .squote =>
      if c = '\'' then shlexRun .word quoted tok acc rest
      else shlexRun .squote quoted (tok ++ [c]) acc rest
    | .dquote =>
      if c = '"' then shlexRun .word quoted tok acc rest
      else if c = '\\' then shlexRun .escDquote quoted tok acc rest
      else shlexRun .dquote quoted (tok ++ [c]) acc rest
    | .escWord => shlexRun .word quoted (tok ++ [c]) acc rest
    | .escDquote =>
      if c = '\\' ∨ c = '"' then shlexRun .dquote quoted (tok ++ [c]) acc rest
      else shlexRun .dquote quoted (tok ++ ['\\', c]) acc rest

/-- Python `shlex.split(command)`. -/
def shlexSplit (l : List Char) : Option (List (List Char)) :=
  shlexRun .space false [] [] l

/-- Typed rendering of the distinct `ValueError` raise sites of
`LXCExecSpec._validate_command`, named after the specification's error
taxonomy.  `executableNotAllowed` carries the exact message text of the
exception raised at `controller/app.py` line 290 (it interpolates the
allow-list only). -/
inductive VErr where
  | emptyCommand
  | forbiddenMetacharacter
  | invalidSyntax
  | chainingSyntaxError
  | emptySegment
  | trailingChain
  | executableNotAllowed (message : List Char)
deriving DecidableEq

/-- `LXCExecSpec._allowed_executables` (`controller/app.py` lines 243-248). -/
def allowedExecutables : List (List Char) :=
  [strL "systemctl", strL "service", strL "journalctl", strL "ls", strL "cat",
   strL "tail", strL "head", strL "df", strL "du", strL "ps", strL "kill",
   strL "docker", strL "git", strL "curl", strL "wget", strL "python3",
   strL "pip", strL "bash", strL "sh", strL "apt", strL "apt-get"]

/-- The message of the `ValueError` raised on an allow-list miss:
`f"Command not allowed. Allowed executables: {allowed}"` with
`allowed = list(cls._allowed_executables)`. -/
def allowedMessage : List Char :=
  strL "Command not allowed. Allowed executables: ['systemctl', 'service', 'journalctl', 'ls', 'cat', 'tail', 'head', 'df', 'du', 'ps', 'kill', 'docker', 'git', 'curl', 'wget', 'python3', 'pip', 'bash', 'sh', 'apt', 'apt-get']"

/-- `os.path.basename` for POSIX paths: everything after the last `/`. -/
def basename (l : List Char) : List Char :=
  (l.reverse.takeWhile (fun c => c ≠ '/')).reverse

/-- The `&&`-splitting loop of `_validate_command` (`controller/app.py`
lines 268-284): walk the tokens, splitting into segments on the exact token
`&&`. -/
def splitGo (acc : List (List (List Char))) (cur : List (List Char)) :
    List (List Char) → Except VErr (List (List (List Char)))
  | [] => if cur = [] then .error .trailingChain else .ok (acc ++ [cur])
  | t :: rest =>
    if containsAmpAmp t ∧ t ≠ ['&', '&'] then .error .chainingSyntaxError
    else if t = ['&', '&'] then
      if cur = [] then .error .emptySegment
      else splitGo (acc ++ [cur]) [] rest
    else splitGo acc (cur ++ [t]) rest

/-- The allow-list loop of `_validate_command` (lines 286-290): the basename
of every segment's first token must be allow-listed. -/
def checkSegs : List (List (List Char)) → Except VErr Unit
  | [] => .ok ()
  | seg :: rest =>
    if allowedExecutables.contains (basename (seg.headD [])) then checkSegs rest
    else .error (.executableNotAllowed allowedMessage)

/-- A validated command: the trimmed original string plus the `&&`-delimited
segment token lists (the spec's `CommandPlan`). -/
structure CommandPlan where
  rendered : List Char
  segments : List (List (List Char))
deriving DecidableEq

/-- Body of `LXCExecSpec._validate_command` after `command = raw.strip()`
(`controller/app.py` lines 253-292), operating on the trimmed command. -/
def validateCore (command : List Char) : Except VErr CommandPlan :=
  if command = [] then .error .emptyCommand
  else if command.contains ';' || command.contains '|' || command.contains backtick then
    .error .forbiddenMetacharacter
  else if hasLoneAmp command then .error .forbiddenMetacharacter
  else
    match shlexSplit command with
    | none => .error .invalidSyntax
    | some tokens =>
      if tokens = [] then .error .emptyCommand
      else
        match splitGo [] [] tokens with
        | .error e => .error e
        | .ok segments =>
          match checkSegs segments with
          | .error e => .error e
          | .ok _ => .ok ⟨command, segments⟩

/-- `LXCExecSpec._validate_command` (`controller/app.py` lines 250-292). -/
def validateCommand (raw : List Char) : Except VErr CommandPlan :=
  validateCore (pyStrip raw)

deriving instance DecidableEq for Except

/-- Typed rendering of the distinct `SSHError` raise sites of
`SSHRunner.__init__` (`controller/app.py` lines 969-1052), named after the
specification's error taxonomy.  Both bracket-format messages ("Expected
closing ']'" and "Invalid SSH host format after IPv6 literal") map to
`invalidIPv6`; both the non-numeric-port and the out-of-range-port messages
map to `invalidPort`. -/
inductive SSHErr where
  | emptyHost
  | unsupportedScheme
  | hostHasPathComponent
  | emptyUser
  | emptyPort
  | invalidPort
  | invalidIPv6
deriving DecidableEq

/-- `0` to `9`. -/
def isDigitCh (c : Char) : Bool := '0' ≤ c ∧ c ≤ '9'

/-- Decimal value of a digit string. -/
def digitsVal (l : List Char) : Nat :=
  l.foldl (fun a c => 10 * a + (c.toNat - 48)) 0

/-- Python `int(s)` on the inputs occurring here: optional sign followed by
decimal digits, surrounding whitespace tolerated (Python's digit-group
underscores and non-ASCII digits are not modelled; no input in this
development uses them).  `none` models `ValueError`. -/
def pyInt (l : List Char) : Option Int :=
  match pyStrip l with
  | '+' :: ds => if ds ≠ [] ∧ ds.all isDigitCh then some (digitsVal ds) else none
  | '-' :: ds => if ds ≠ [] ∧ ds.all isDigitCh then some (-(digitsVal ds : Int)) else none
  | ds => if ds ≠ [] ∧ ds.all isDigitCh then some (digitsVal ds) else none

/-- Occurrences of a character, Python `s.count(c)`. -/
def countOcc (c : Char) (l : List Char) : Nat :=
  (l.filter (fun a => a = c)).length

/-- `raw_host.lower().startswith("ssh://")` (`controller/app.py` line 974):
`str.lower` only rewrites letters, so the fourth to sixth characters must be
literally `://` and the first three must be `ssh` up to ASCII case. -/
def startsWithSshScheme : List Char → Bool
  | c1 :: c2 :: c3 :: ':' :: '/' :: '/' :: _ =>
    (c1 = 's' ∨ c1 = 'S') ∧ (c2 = 's' ∨ c2 = 'S') ∧ (c3 = 'h' ∨ c3 = 'H')
  | _ => false

/-- `"://" in raw_host`. -/
def containsCSS : List Char → Bool
  | [] => false
  | c :: rest =>
    if c = ':' ∧ rest.take 2 = ['/', '/'] then true else containsCSS rest

/-- Scheme handling of `SSHRunner.__init__` (lines 973-978): strip a
(case-insensitive) `ssh://`, reject any other `://` URI. -/
def stripScheme (r : List Char) : Except SSHErr (List Char) :=
  if startsWithSshScheme r then .ok (r.drop 6)
  else if containsCSS r then .error .unsupportedScheme
  else .ok r

/-- Path handling (lines 984-988): `split("/", 1)`; everything after the
first `/` must be blank, and the part before it (stripped) becomes the
host text. -/
def stripPath (r : List Char) : Except SSHErr (List Char) :=
  if r.contains '/' then
    let ho := r.takeWhile (fun c => c ≠ '/')
    let rem := (r.dropWhile (fun c => c ≠ '/')).drop 1
    if pyStrip rem ≠ [] then .error .hostHasPathComponent else .ok (pyStrip ho)
  else .ok r

/-- Embedded-user handling (lines 993-1001): split on the **first** `@`;
the left part (stripped, non-empty) is the detected user, the right part
(stripped, non-empty) continues as host text. -/
def splitUser (r : List Char) : Except SSHErr (Option (List Char) × List Char) :=
  if r.contains '@' then
    let u := pyStrip (r.takeWhile (fun c => c ≠ '@'))
    let rest := pyStrip ((r.dropWhile (fun c => c ≠ '@')).drop 1)
    if u = [] then .error .emptyUser
    else if rest = [] then .error .emptyHost
    else .ok (some u, rest)
  else .ok (none, r)

/-- Host/port parsing (lines 1003-1036): a leading `[` opens a bracketed
IPv6 literal (content up to the first `]` is the host, an optional `:port`
may follow); otherwise a string with exactly one `:` is split at it into
host and port; otherwise the whole text is the host. -/
def parseHostPort (r : List Char) : Except SSHErr (List Char × Option Int) :=
  if r.head? = some '[' then
    let rest := r.drop 1
    let inner := rest.takeWhile (fun c => c ≠ ']')
    match rest.dropWhile (fun c => c ≠ ']') with
    | [] => .error .invalidIPv6
    | _ :: rem =>
      let innerHost := pyStrip inner
      if innerHost = [] then .error .emptyHost
      else
        match rem with
        | [] => .ok (innerHost, none)
        | ':' :: ps =>
          let portStr := pyStrip ps
          if portStr = [] then .error .emptyPort
          else
            match pyInt portStr with
            | none => .error .invalidPort
            | some v => .ok (innerHost, some v)
        | _ => .error .invalidIPv6
  else if countOcc ':' r = 1 then
    let hp := pyStrip (r.takeWhile (fun c => c ≠ ':'))
    let ps := pyStrip ((r.dropWhile (fun c => c ≠ ':')).drop 1)
    if hp = [] then .error .emptyHost
    else if ps = [] then .error .emptyPort
    else
      match pyInt ps with
      | none => .error .invalidPort
      | some v => .ok (hp, some v)
  else .ok (r, none)

/-- The connection data established by `SSHRunner.__init__` (host, port and
user; the credential fields are stored unchanged and are modelled on
`ConnFields`). -/
structure RunnerConn where
  host : List Char
  port : Int
  user : List Char
deriving DecidableEq

/-- Final user check of `SSHRunner.__init__` (lines 1049-1056): `fu` is the
already-computed `final_user`. -/
def sshFinUser (ph : List Char) (fp : Int) (fu : List Char) : Except SSHErr RunnerConn :=
  if fu = [] then .error .emptyUser else .ok ⟨ph, fp, fu⟩

/-- Final port range check of `SSHRunner.__init__` (lines 1041-1047):
`fp` is the already-computed `final_port` (detected port if any, else the
`port` argument); `final_user` is the detected user if any, else the
stripped `user` argument. -/
def sshFinPort (ph : List Char) (fp : Int) (du : Option (List Char))
    (user : List Char) : Except SSHErr RunnerConn :=
  if 1 ≤ fp ∧ fp ≤ 65535 then
    sshFinUser ph fp (du.getD (if user = [] then [] else pyStrip user))
  else .error .invalidPort

/-- `parsed_host` emptiness check and port selection (lines 1038-1041):
`final_port` is the detected port when present, else the `port` argument. -/
def sshStage6 : Except SSHErr (List Char × Option Int) → Option (List Char) →
    List Char → Int → Except SSHErr RunnerConn
  | .error e, _, _, _ => .error e
  | .ok (ph, dp), du, user, port =>
    if ph = [] then .error .emptyHost
    else sshFinPort ph (dp.getD port) du user

/-- Host/port parsing step (lines 1003-1036). -/
def sshStage5 : Except SSHErr (Option (List Char) × List Char) → List Char →
    Int → Except SSHErr RunnerConn
  | .error e, _, _ => .error e
  | .ok (du, r3), user, port => sshStage6 (parseHostPort r3) du user port

/-- Embedded user step (lines 993-1001). -/
def sshStage4 : Except SSHErr (List Char) → List Char → Int →
    Except SSHErr RunnerConn
  | .error e, _, _ => .error e
  | .ok r2, user, port => sshStage5 (splitUser r2) user port

/-- Path-component step (lines 984-988). -/
def sshStage3 (r1s user : List Char) (port : Int) : Except SSHErr RunnerConn :=
  if r1s = [] then .error .emptyHost else sshStage4 (stripPath r1s) user port

/-- Re-strip and emptiness check after scheme removal (lines 980-982). -/
def sshStage2 : Except SSHErr (List Char) → List Char → Int →
    Except SSHErr RunnerConn
  | .error e, _, _ => .error e
  | .ok r1, user, port => sshStage3 (pyStrip r1) user port

/-- Scheme step on the stripped host (lines 969-978). -/
def sshStage1 (raw0 user : List Char) (port : Int) : Except SSHErr RunnerConn :=
  if raw0 = [] then .error .emptyHost else sshStage2 (stripScheme raw0) user port

/-- The host/user/port normalization of `SSHRunner.__init__`
(`controller/app.py` lines 958-1056), written as the chain of its
successive blocks. -/
def sshRunnerInit (host user : List Char) (port : Int) : Except SSHErr RunnerConn :=
  sshStage1 (if host = [] then [] else pyStrip host) user port

/-- Environment lookup (`os.getenv`). -/
def EnvMap : Type := String → Option (List Char)

/-- `_env_non_empty` (`controller/app.py` lines 696-701). -/
def envNonEmpty (env : EnvMap) (name : String) : Option (List Char) :=
  match env name with
  | none => none
  | some v => if pyStrip v = [] then none else some (pyStrip v)

/-- `_first_non_empty` (lines 683-693) restricted to string arguments: skip
`None`s and blank strings, return the first remaining value stripped. -/
def firstNonEmptyStr : List (Option (List Char)) → Option (List Char)
  | [] => none
  | none :: rest => firstNonEmptyStr rest
  | some v :: rest =>
    if pyStrip v = [] then firstNonEmptyStr rest else some (pyStrip v)

/-- `_bool_env` (lines 551-555). -/
def asciiLower (c : Char) : Char :=
  if 'A' ≤ c ∧ c ≤ 'Z' then Char.ofNat (c.toNat + 32) else c

/-- `_bool_env` (lines 551-555): the stripped, lowered value must be one of
`1`, `true`, `yes`, `on`. -/
def boolEnv (env : EnvMap) (name : String) (dflt : Bool) : Bool :=
  match env name with
  | none => dflt
  | some v =>
    let s := (pyStrip v).map asciiLower
    s = strL "1" ∨ s = strL "true" ∨ s = strL "yes" ∨ s = strL "on"

/-- The request fields consumed by `_resolve_ssh_connection` via `getattr`
(`host`, `user`, `port`, `key_path`, `key_data_b64`, `password`,
`strict_host_key`). -/
structure SSHSpec where
  host : Option (List Char)
  user : Option (List Char)
  port : Option Int
  key_path : Option (List Char)
  key_data_b64 : Option (List Char)
  password : Option (List Char)
  strict_host_key : Option Bool

/-- Errors raised by `_resolve_ssh_connection` (HTTP 400s). -/
inductive ResolveErr where
  | missingHost
  | invalidPortValue
deriving DecidableEq

/-- The connection dictionary returned by `_resolve_ssh_connection`
(`controller/app.py` lines 760-768). -/
structure ConnFields where
  host : List Char
  user : List Char
  port : Int
  key_path : Option (List Char)
  key_data_b64 : Option (List Char)
  password : Option (List Char)
  strict : Bool
deriving DecidableEq

/-- Port resolution of `_resolve_ssh_connection` (lines 723-735): an
explicit `port` field wins, else the first non-empty of the two environment
variables is parsed with `int`, else 22. -/
def resolvePort (spec : SSHSpec) (env : EnvMap) : Except ResolveErr Int :=
  match spec.port with
  | some p => .ok p
  | none =>
    match firstNonEmptyStr [envNonEmpty env "DEFAULT_SSH_PORT",
                            envNonEmpty env "PVE_SSH_PORT"] with
    | none => .ok 22
    | some s =>
      match pyInt s with
      | some v => .ok v
      | none => .error .invalidPortValue

/-- `_resolve_ssh_connection` (`controller/app.py` lines 704-768).
`fileExists` models `os.path.exists`. -/
def resolveSSHConnection (spec : SSHSpec) (env : EnvMap)
    (fileExists : String → Bool) : Except ResolveErr ConnFields :=
  match firstNonEmptyStr [spec.host, envNonEmpty env "DEFAULT_SSH_HOST",
                          envNonEmpty env "PVE_SSH_HOST"] with
  | none => .error .missingHost
  | some host =>
    let user := (firstNonEmptyStr [spec.user, envNonEmpty env "DEFAULT_SSH_USER",
                                   envNonEmpty env "PVE_SSH_USER",
                                   some (strL "root")]).getD []
    match resolvePort spec env with
    | .error e => .error e
    | .ok port =>
      let kp0 := firstNonEmptyStr [spec.key_path,
                                   envNonEmpty env "DEFAULT_SSH_KEY_PATH",
                                   envNonEmpty env "PVE_SSH_KEY_PATH"]
      let kp := match kp0 with
        | some p => some p
        | none =>
          if fileExists "/keys/pve_id_rsa" then some (strL "/keys/pve_id_rsa")
          else none
      let kd := firstNonEmptyStr [spec.key_data_b64,
                                  envNonEmpty env "DEFAULT_SSH_KEY_B64"]
      let pw := firstNonEmptyStr [spec.password,
                                  envNonEmpty env "DEFAULT_SSH_PASSWORD",
                                  envNonEmpty env "PVE_SSH_PASSWORD"]
      let strict := match spec.strict_host_key with
        | some b => b
        | none => boolEnv env "DEFAULT_SSH_STRICT_HOST_KEY" false
      .ok ⟨host, user, port, kp, kd, pw, strict⟩

/-- The single credential actually used for authentication. -/
inductive Cred where
  | keyPath (p : List Char)
  | keyData (d : List Char)
  | password (pw : List Char)
  | noCred
deriving DecidableEq

/-- The credential selection of `SSHRunner._get_pkey` (lines 1087-1103)
combined with `SSHRunner.run` (line 1114, `password=self.password if not
pkey else None`): a key path wins over key data, which wins over a
password. -/
def effectiveCred (c : ConnFields) : Cred :=
  match c.key_path with
  | some p => .keyPath p
  | none =>
    match c.key_data_b64 with
    | some d => .keyData d
    | none =>
      match c.password with
      | some pw => .password pw
      | none => .noCred

/-- The credential precedence actually implemented, written in the
specification's style as a first-match list: every key-path source
(explicit, environment, default file on disk) precedes every key-data
source, which precedes every password source. -/
def credPrecedence (spec : SSHSpec) (env : EnvMap)
    (fileExists : String → Bool) : Cred :=
  match firstNonEmptyStr [spec.key_path, envNonEmpty env "DEFAULT_SSH_KEY_PATH",
                          envNonEmpty env "PVE_SSH_KEY_PATH"] with
  | some p => .keyPath p
  | none =>
    if fileExists "/keys/pve_id_rsa" then .keyPath (strL "/keys/pve_id_rsa")
    else
      match firstNonEmptyStr [spec.key_data_b64,
                              envNonEmpty env "DEFAULT_SSH_KEY_B64"] with
      | some d => .keyData d
      | none =>
        match firstNonEmptyStr [spec.password,
                                envNonEmpty env "DEFAULT_SSH_PASSWORD",
                                envNonEmpty env "PVE_SSH_PASSWORD"] with
        | some pw => .password pw
        | none => .noCred

/-- Errors of the composed pipeline `SSHRunner(**_resolve_ssh_connection(spec))`. -/
inductive PipeErr where
  | resolve (e : ResolveErr)
  | runner (e : SSHErr)
deriving DecidableEq

/-- Lift an `SSHRunner.__init__` outcome into the endpoint pipeline. -/
def runnerToPipe : Except SSHErr RunnerConn → Except PipeErr RunnerConn
  | .error e => .error (.runner e)
  | .ok r => .ok r

/-- Feed a `_resolve_ssh_connection` outcome to `SSHRunner.__init__`. -/
def resolveToPipe : Except ResolveErr ConnFields → Except PipeErr RunnerConn
  | .error e => .error (.resolve e)
  | .ok c => runnerToPipe (sshRunnerInit c.host c.user c.port)

/-- The endpoint pipeline (`controller/app.py` lines 1446, 1461, 1490):
`SSHRunner(**_resolve_ssh_connection(spec))`, restricted to the host, user
and port normalization. -/
def fullResolve (spec : SSHSpec) (env : EnvMap) (fileExists : String → Bool) :
    Except PipeErr RunnerConn :=
  resolveToPipe (resolveSSHConnection spec env fileExists)

/-- The user precedence implemented by `_resolve_ssh_connection` alone:
explicit field, then the two environment defaults, then `root`. -/
def userPrecedence (spec : SSHSpec) (env : EnvMap) : List Char :=
  (firstNonEmptyStr [spec.user, envNonEmpty env "DEFAULT_SSH_USER",
                     envNonEmpty env "PVE_SSH_USER", some (strL "root")]).getD []

/-! ### Helper lemmas about `pyStrip` -/

theorem mem_dropWhile_of_mem {p : Char → Bool} {c : Char} :
    ∀ {l : List Char}, c ∈ l → p c = false → c ∈ l.dropWhile p := by
  intro l
  induction l with
  | nil => intro h; cases h
  | cons x xs ih =>
    intro h hp
    rw [List.dropWhile_cons]
    split
    · rcases List.mem_cons.mp h with rfl | hx
      · simp_all
      · exact ih hx hp
    · exact h

theorem dropWhile_sub {p : Char → Bool} {l : List Char} : l.dropWhile p ⊆ l :=
  (List.dropWhile_suffix p).subset

theorem rdropWhile_sub {p : Char → Bool} {l : List Char} : l.rdropWhile p ⊆ l := by
  intro c hc
  rw [List.rdropWhile, List.mem_reverse] at hc
  exact (List.mem_reverse).mp (dropWhile_sub hc)

theorem mem_rdropWhile_of_mem {p : Char → Bool} {c : Char} {l : List Char}
    (h : c ∈ l) (hp : p c = false) : c ∈ l.rdropWhile p := by
  rw [List.rdropWhile, List.mem_reverse]
  exact mem_dropWhile_of_mem ((List.mem_reverse).mpr h) hp

theorem pyStrip_sub {l : List Char} : pyStrip l ⊆ l :=
  fun _ hc => dropWhile_sub (rdropWhile_sub hc)

theorem mem_pyStrip_of_mem {c : Char} {l : List Char}
    (h : c ∈ l) (hp : pyWs c = false) : c ∈ pyStrip l :=
  mem_rdropWhile_of_mem (mem_dropWhile_of_mem h hp) hp

theorem rdropWhile_append_rtakeWhile (p : Char → Bool) (l : List Char) :
    List.rdropWhile p l ++ List.rtakeWhile p l = l := by
  rw [List.rdropWhile, List.rtakeWhile, ← List.reverse_append,
    List.takeWhile_append_dropWhile, List.reverse_reverse]

theorem dropWhile_eq_self_of (p : Char → Bool) (l : List Char)
    (h : ∀ c ∈ l, p c = false) : l.dropWhile p = l := by
  cases l with
  | nil => rfl
  | cons x xs =>
    rw [List.dropWhile_cons, if_neg]
    simp [h x (List.mem_cons_self x xs)]

theorem rdropWhile_eq_self_of (p : Char → Bool) (l : List Char)
    (h : ∀ c ∈ l, p c = false) : l.rdropWhile p = l := by
  rw [List.rdropWhile, dropWhile_eq_self_of, List.reverse_reverse]
  intro c hc
  exact h c ((List.mem_reverse).mp hc)

theorem pyStrip_eq_self_of {l : List Char}
    (h : ∀ c ∈ l, pyWs c = false) : pyStrip l = l := by
  rw [pyStrip, dropWhile_eq_self_of _ _ h, rdropWhile_eq_self_of _ _ h]

theorem pyStrip_idem (l : List Char) : pyStrip (pyStrip l) = pyStrip l := by
  rw [pyStrip, pyStrip]
  set u := l.dropWhile pyWs with hu
  have hdu : u.dropWhile pyWs = u := List.dropWhile_idempotent pyWs l
  have hsplit : u.rdropWhile pyWs ++ List.rtakeWhile pyWs u = u :=
    rdropWhile_append_rtakeWhile pyWs u
  have hdw : (u.rdropWhile pyWs).dropWhile pyWs = u.rdropWhile pyWs := by
    cases hw : u.rdropWhile pyWs with
    | nil => rfl
    | cons c w =>
      rw [List.dropWhile_cons]
      have hc : pyWs c = false := by
        have hu2 : u = c :: (w ++ List.rtakeWhile pyWs u) := by
          conv_lhs => rw [← hsplit]
          rw [hw, List.cons_append]
        have hthis := hdu
        rw [hu2, List.dropWhile_cons] at hthis
        by_cases hpc : pyWs c = true
        · exfalso
          rw [if_pos hpc] at hthis
          have hlen := congrArg List.length hthis
          rw [List.length_cons] at hlen
          have hsub : ((w ++ List.rtakeWhile pyWs u).dropWhile pyWs).length ≤
              (w ++ List.rtakeWhile pyWs u).length :=
            List.Sublist.length_le ((List.dropWhile_suffix pyWs).sublist)
          omega
        · simpa using hpc
      rw [if_neg (by simp [hc])]
  rw [hdw, List.rdropWhile_idempotent]

/-! ### Helper lemmas about the lone-`&` scan -/

theorem pyWs_ne_amp {c : Char} (h : pyWs c = true) : c ≠ '&' := by
  intro rfl_h
  subst rfl_h
  simp [pyWs] at h

theorem loneAmpAux_cons (b : Bool) (c : Char) (rest : List Char) :
    loneAmpAux b (c :: rest) =
      if c = '&' ∧ b = false ∧ rest.head? ≠ some '&' then true
      else loneAmpAux (c = '&') rest := rfl

theorem loneAmpAux_false_of_no_amp {u : List Char} (h : '&' ∉ u) :
    ∀ b, loneAmpAux b u = false := by
  induction u with
  | nil => intro b; rfl
  | cons c rest ih =>
    intro b
    have hc : c ≠ '&' := fun hcc => h (hcc ▸ List.mem_cons_self c rest)
    rw [loneAmpAux, if_neg (by simp [hc])]
    exact ih (fun hm => h (List.mem_cons_of_mem c hm)) _

theorem loneAmpAux_append_no_amp {u : List Char} (hu : '&' ∉ u) :
    ∀ (t : List Char) (b : Bool), loneAmpAux b (t ++ u) = loneAmpAux b t := by
  intro t
  induction t with
  | nil =>
    intro b
    rw [List.nil_append, loneAmpAux_false_of_no_amp hu]
    rfl
  | cons c t' ih =>
    intro b
    have hhead : (t' ++ u).head? = some '&' ↔ t'.head? = some '&' := by
      cases t' with
      | nil =>
        simp only [List.nil_append, List.head?]
        cases u with
        | nil => simp
        | cons x xs =>
          have : x ≠ '&' := fun hx => hu (hx ▸ List.mem_cons_self x xs)
          simp [List.head?, this]
      | cons d t'' => simp [List.head?]
    rw [List.cons_append, loneAmpAux, loneAmpAux]
    by_cases hcond : c = '&' ∧ b = false ∧ t'.head? ≠ some '&'
    · rw [if_pos hcond, if_pos ⟨hcond.1, hcond.2.1, fun hh => hcond.2.2 (hhead.mp hh)⟩]
    · rw [if_neg hcond, if_neg (fun hcnd => hcond ⟨hcnd.1, hcnd.2.1,
        fun hh => hcnd.2.2 (hhead.mpr hh)⟩), ih]

theorem hasLoneAmp_dropWhile_ws (l : List Char) :
    hasLoneAmp (l.dropWhile pyWs) = hasLoneAmp l := by
  induction l with
  | nil => rfl
  | cons c rest ih =>
    rw [List.dropWhile_cons]
    split
    · next hws =>
      have hc : c ≠ '&' := pyWs_ne_amp hws
      rw [ih, hasLoneAmp, hasLoneAmp, loneAmpAux_cons, if_neg (by simp [hc])]
      have hdc : (decide (c = '&')) = false := by simp [hc]
      rw [hdc]
    · rfl

theorem hasLoneAmp_rdropWhile_ws (l : List Char) :
    hasLoneAmp (l.rdropWhile pyWs) = hasLoneAmp l := by
  have hws : ∀ c ∈ List.rtakeWhile pyWs l, pyWs c = true :=
    fun c hc => List.mem_rtakeWhile_imp hc
  have hnoamp : '&' ∉ List.rtakeWhile pyWs l := by
    intro hm
    exact pyWs_ne_amp (hws '&' hm) rfl
  conv_rhs => rw [← rdropWhile_append_rtakeWhile pyWs l]
  rw [hasLoneAmp, hasLoneAmp, loneAmpAux_append_no_amp hnoamp]

theorem hasLoneAmp_pyStrip (l : List Char) :
    hasLoneAmp (pyStrip l) = hasLoneAmp l := by
  rw [pyStrip, hasLoneAmp_rdropWhile_ws, hasLoneAmp_dropWhile_ws]

theorem loneAmpAux_sound :
    ∀ (a : List Char) (b : Bool) (r : List Char),
      (a = [] → b = false) → (a ≠ [] → a.getLast? ≠ some '&') →
      r.head? ≠ some '&' → loneAmpAux b (a ++ '&' :: r) = true := by
  intro a
  induction a with
  | nil =>
    intro b r hb _ hr
    rw [List.nil_append, loneAmpAux_cons, if_pos ⟨rfl, hb rfl, hr⟩]
  | cons c a' ih =>
    intro b r _ hlast hr
    rw [List.cons_append, loneAmpAux_cons]
    by_cases hcond : c = '&' ∧ b = false ∧ (a' ++ '&' :: r).head? ≠ some '&'
    · rw [if_pos hcond]
    · rw [if_neg hcond]
      refine ih _ r ?_ ?_ hr
      · intro ha'
        subst ha'
        have h1 := hlast (by simp)
        simp only [List.getLast?_singleton] at h1
        have hc : c ≠ '&' := by
          intro hcc
          exact h1 (by rw [hcc])
        simp [hc]
      · intro hne
        cases ha' : a' with
        | nil => exact absurd ha' hne
        | cons d a'' =>
          subst ha'
          have h1 := hlast (by simp)
          rwa [List.getLast?_cons_cons] at h1

theorem loneAmpAux_complete :
    ∀ (s : List Char) (b : Bool), loneAmpAux b s = true →
      ∃ a r, s = a ++ '&' :: r ∧ (a = [] → b = false) ∧
        (a ≠ [] → a.getLast? ≠ some '&') ∧ r.head? ≠ some '&' := by
  intro s
  induction s with
  | nil => intro b h; cases h
  | cons c rest ih =>
    intro b h
    rw [loneAmpAux] at h
    by_cases hcond : c = '&' ∧ b = false ∧ rest.head? ≠ some '&'
    · exact ⟨[], rest, by simp [hcond.1], fun _ => hcond.2.1,
        fun hne => absurd rfl hne, hcond.2.2⟩
    · rw [if_neg hcond] at h
      obtain ⟨a', r', heq, hb', hlast', hr'⟩ := ih _ h
      refine ⟨c :: a', r', by simp [heq], fun hc => absurd hc (by simp), ?_, hr'⟩
      intro _
      cases ha' : a' with
      | nil =>
        have hbc := hb' (by rw [ha'])
        have hc : c ≠ '&' := by
          intro hcc
          rw [hcc] at hbc
          simp at hbc
        simp [ha', hc]
      | cons d a'' =>
        rw [List.getLast?_cons_cons]
        have := hlast' (by rw [ha']; simp)
        rwa [ha'] at this

theorem hasLoneAmp_iff (s : List Char) :
    hasLoneAmp s = true ↔
      ∃ a r, s = a ++ '&' :: r ∧ a.getLast? ≠ some '&' ∧ r.head? ≠ some '&' := by
  constructor
  · intro h
    obtain ⟨a, r, heq, _, hlast, hr⟩ := loneAmpAux_complete s false h
    refine ⟨a, r, heq, ?_, hr⟩
    cases a with
    | nil => simp
    | cons x xs => exact hlast (by simp)
  · rintro ⟨a, r, rfl, hlast, hr⟩
    exact loneAmpAux_sound a false r (fun _ => rfl) (fun _ => hlast) hr

/-! ### Helper lemmas about the validator pipeline -/

theorem contains_true_of_mem {c : Char} {l : List Char} (h : c ∈ l) :
    l.contains c = true := by
  simp only [List.contains, List.elem_eq_mem, decide_eq_true_eq]
  exact h

theorem contains_false_of_not_mem {c : Char} {l : List Char} (h : c ∉ l) :
    l.contains c = false := by
  simp only [List.contains, List.elem_eq_mem, decide_eq_false_iff_not]
  exact h

theorem validateCore_ok {cmd : List Char} {plan : CommandPlan}
    (h : validateCore cmd = .ok plan) :
    plan.rendered = cmd ∧ checkSegs plan.segments = .ok () ∧
      ∃ tokens, shlexSplit cmd = some tokens ∧
        splitGo [] [] tokens = .ok plan.segments := by
  unfold validateCore at h
  split at h
  · cases h
  · split at h
    · cases h
    · split at h
      · cases h
      · split at h
        · cases h
        · rename_i tokens heq
          split at h
          · cases h
          · split at h
            · cases h
            · rename_i segments hsplit
              split at h
              · cases h
              · rename_i u hcheck
                cases h
                exact ⟨rfl, by cases u; exact hcheck, tokens, heq, hsplit⟩

theorem checkSegs_ok_mem : ∀ {segs}, checkSegs segs = .ok () →
    ∀ seg ∈ segs, allowedExecutables.contains (basename (seg.headD [])) = true := by
  intro segs
  induction segs with
  | nil => intro _ seg hm; cases hm
  | cons s rest ih =>
    intro h seg hm
    rw [checkSegs] at h
    split at h
    · rcases List.mem_cons.mp hm with rfl | hm2
      · assumption
      · exact ih h seg hm2
    · cases h

theorem checkSegs_err : ∀ {segs e}, checkSegs segs = .error e →
    e = .executableNotAllowed allowedMessage := by
  intro segs
  induction segs with
  | nil => intro e h; cases h
  | cons s rest ih =>
    intro e h
    rw [checkSegs] at h
    split at h
    · exact ih h
    · exact (Except.error.inj h).symm

theorem splitGo_err {e : VErr} : ∀ {ts acc cur}, splitGo acc cur ts = .error e →
    e = .chainingSyntaxError ∨ e = .emptySegment ∨ e = .trailingChain := by
  intro ts
  induction ts with
  | nil =>
    intro acc cur h
    rw [splitGo] at h
    split at h
    · exact Or.inr (Or.inr (Except.error.inj h).symm)
    · cases h
  | cons t rest ih =>
    intro acc cur h
    rw [splitGo] at h
    split at h
    · exact Or.inl (Except.error.inj h).symm
    · split at h
      · split at h
        · exact Or.inr (Or.inl (Except.error.inj h).symm)
        · exact ih h
      · exact ih h

theorem splitGo_ok_no_ampamp : ∀ {ts acc cur segs}, splitGo acc cur ts = .ok segs →
    (∀ seg ∈ acc, ∀ t ∈ seg, containsAmpAmp t = false) →
    (∀ t ∈ cur, containsAmpAmp t = false) →
    ∀ seg ∈ segs, ∀ t ∈ seg, containsAmpAmp t = false := by
  intro ts
  induction ts with
  | nil =>
    intro acc cur segs h hacc hcur
    rw [splitGo] at h
    split at h
    · cases h
    · cases h
      intro seg hm
      rcases List.mem_append.mp hm with h1 | h2
      · exact hacc seg h1
      · rw [List.mem_singleton.mp h2]
        exact hcur
  | cons t rest ih =>
    intro acc cur segs h hacc hcur
    rw [splitGo] at h
    split at h
    · cases h
    · rename_i hcond
      split at h
      · rename_i hta
        split at h
        · cases h
        · refine ih h ?_ ?_
          · intro seg hm
            rcases List.mem_append.mp hm with h1 | h2
            · exact hacc seg h1
            · rw [List.mem_singleton.mp h2]
              exact hcur
          · intro u hm; cases hm
      · rename_i hta
        have htf : containsAmpAmp t = false := by
          by_cases hct : containsAmpAmp t = true
          · exact absurd ⟨hct, hta⟩ hcond
          · simpa using hct
        refine ih h hacc ?_
        intro u hm
        rcases List.mem_append.mp hm with h1 | h2
        · exact hcur u h1
        · rw [List.mem_singleton.mp h2]
          exact htf

/-! ### Claims about the command validator -/

/-- Claim C1 (amended): every `&&`-delimited segment of an accepted command
has an allow-listed leading-executable basename; a command with a
non-allow-listed segment leader fails with `ExecutableNotAllowed` (whose
message carries the allow-list, not the rejected name); `ls && rm -rf /`
is rejected at the `rm` segment even though `ls` is allowed, while
`ls && cat file` succeeds with segments `[ls]` and `[cat, file]`. -/
theorem command_allowlist_per_segment :
    (∀ raw plan, validateCommand raw = .ok plan →
      ∀ seg ∈ plan.segments,
        allowedExecutables.contains (basename (seg.headD [])) = true) ∧
    validateCommand (strL "ls && rm -rf /") =
      .error (.executableNotAllowed allowedMessage) ∧
    validateCommand (strL "ls && cat file") =
      .ok ⟨strL "ls && cat file", [[strL "ls"], [strL "cat", strL "file"]]⟩ := by
  refine ⟨?_, by decide, by decide⟩
  intro raw plan h
  rw [validateCommand] at h
  obtain ⟨-, hcheck, -⟩ := validateCore_ok h
  exact checkSegs_ok_mem hcheck

/-- Claim C1 counterexample: validating `ls && rm -rf /` does fail with the
`ExecutableNotAllowed` error, but the error's message does not contain
`rm` anywhere — the exception text interpolates only the allow-list, so the
failure does not cite the rejected executable as the claim states. -/
theorem command_allowlist_message_counterexample :
    validateCommand (strL "ls && rm -rf /") =
      .error (.executableNotAllowed allowedMessage) ∧
    listContains (strL "rm") allowedMessage = false :=
  ⟨by decide, by decide⟩

/-- Witness for C1: the universal part applied to the accepted command
`ls && cat file` and its second segment. -/
theorem command_allowlist_per_segment_witness :
    allowedExecutables.contains (basename ([strL "cat", strL "file"].headD [])) = true :=
  command_allowlist_per_segment.1 (strL "ls && cat file")
    ⟨strL "ls && cat file", [[strL "ls"], [strL "cat", strL "file"]]⟩
    (by decide) [strL "cat", strL "file"] (by decide)

/-- Claim C3: segments split only on the exact token `&&`: a token merely
containing `&&` aborts the walk with `ChainingSyntaxError`; a `&&` with an
empty accumulated segment fails `EmptySegment` (so `&& ls` fails that way);
an empty accumulating segment at the end of the tokens fails `TrailingChain`
(so `ls &&` fails that way). -/
theorem chain_split_errors :
    (∀ acc cur t rest, containsAmpAmp t = true → t ≠ ['&', '&'] →
      splitGo acc cur (t :: rest) = .error .chainingSyntaxError) ∧
    (∀ acc rest, splitGo acc [] (['&', '&'] :: rest) = .error .emptySegment) ∧
    (∀ acc, splitGo acc [] [] = .error .trailingChain) ∧
    validateCommand (strL "&& ls") = .error .emptySegment ∧
    validateCommand (strL "ls &&") = .error .trailingChain := by
  refine ⟨?_, ?_, ?_, by decide, by decide⟩
  · intro acc cur t rest hc hne
    rw [splitGo, if_pos ⟨hc, hne⟩]
  · intro acc rest
    rw [splitGo, if_neg (by simp), if_pos rfl, if_pos rfl]
  · intro acc
    rw [splitGo, if_pos rfl]

/-- Witness for C3: the three splitting rules applied to concrete token
streams. -/
theorem chain_split_errors_witness :
    splitGo [] [] [strL "a&&b"] = .error .chainingSyntaxError ∧
    splitGo [] [] [['&', '&']] = .error .emptySegment ∧
    splitGo [] [] [] = .error .trailingChain :=
  ⟨chain_split_errors.1 [] [] (strL "a&&b") [] (by decide) (by decide),
   chain_split_errors.2.1 [] [],
   chain_split_errors.2.2.1 []⟩

/-- Claim C9: validation is idempotent — re-validating the `rendered` string
of a successful validation succeeds with the identical `CommandPlan`
(rendered string and segment token lists alike). -/
theorem validation_idempotent (raw : List Char) (plan : CommandPlan)
    (h : validateCommand raw = .ok plan) :
    validateCommand plan.rendered = .ok plan := by
  rw [validateCommand] at h ⊢
  have hr : plan.rendered = pyStrip raw := (validateCore_ok h).1
  rw [hr, pyStrip_idem]
  exact h

/-- Witness for C9: idempotence applied to the accepted command `ls -la`. -/
theorem validation_idempotent_witness :
    validateCommand ((⟨strL "ls -la", [[strL "ls", strL "-la"]]⟩ : CommandPlan).rendered) =
      .ok ⟨strL "ls -la", [[strL "ls", strL "-la"]]⟩ :=
  validation_idempotent (strL "ls -la") _ (by decide)

/-- Claim C10: quote-stripping happens before segment splitting, so a quoted
`&&` word still acts as the chaining operator: `ls '&&' cat f` validates to
exactly the same segments as `ls && cat f`, and no successfully validated
command has any token (in any segment) containing a literal `&&`. -/
theorem quoted_chain_token :
    validateCommand (strL "ls '&&' cat f") =
      .ok ⟨strL "ls '&&' cat f", [[strL "ls"], [strL "cat", strL "f"]]⟩ ∧
    validateCommand (strL "ls && cat f") =
      .ok ⟨strL "ls && cat f", [[strL "ls"], [strL "cat", strL "f"]]⟩ ∧
    (∀ raw plan, validateCommand raw = .ok plan →
      ∀ seg ∈ plan.segments, ∀ t ∈ seg, containsAmpAmp t = false) := by
  refine ⟨by decide, by decide, ?_⟩
  intro raw plan h
  rw [validateCommand] at h
  obtain ⟨-, -, tokens, -, hsplit⟩ := validateCore_ok h
  exact splitGo_ok_no_ampamp hsplit (fun seg hm => absurd hm (List.not_mem_nil seg))
    (fun t hm => absurd hm (List.not_mem_nil t))

/-- Witness for C10: the universal part applied to the quoted command and
the token `cat` of its second segment. -/
theorem quoted_chain_token_witness :
    containsAmpAmp (strL "cat") = false :=
  quoted_chain_token.2.2 (strL "ls '&&' cat f")
    ⟨strL "ls '&&' cat f", [[strL "ls"], [strL "cat", strL "f"]]⟩
    (by decide) [strL "cat", strL "f"] (by decide) (strL "cat") (by decide)

/-- Claim C2: any input containing `;`, `|` or a backtick anywhere in the
raw string is rejected with `ForbiddenMetacharacter`; so is any input
containing a `&` that has neither an `&` immediately before it nor an `&`
immediately after it (stated via an explicit decomposition of the raw
string); and an input free of `;`/`|`/backtick in which every `&` has an
adjacent `&` is never rejected with `ForbiddenMetacharacter`. -/
theorem metacharacter_rejection :
    (∀ s : List Char, (';' ∈ s ∨ '|' ∈ s ∨ backtick ∈ s) →
      validateCommand s = .error .forbiddenMetacharacter) ∧
    (∀ (s a r : List Char), s = a ++ '&' :: r → a.getLast? ≠ some '&' →
      r.head? ≠ some '&' →
      validateCommand s = .error .forbiddenMetacharacter) ∧
    (∀ s : List Char, ';' ∉ s → '|' ∉ s → backtick ∉ s →
      (∀ a r, s = a ++ '&' :: r → a.getLast? = some '&' ∨ r.head? = some '&') →
      validateCommand s ≠ .error .forbiddenMetacharacter) := by
  refine ⟨?_, ?_, ?_⟩
  · intro s hc
    have hws : ∀ c : Char, c = ';' ∨ c = '|' ∨ c = backtick → pyWs c = false := by
      intro c hc
      rcases hc with rfl | rfl | rfl <;> decide
    rcases hc with hm | hm | hm
    all_goals {
      first
      | (have hmem : ';' ∈ pyStrip s := mem_pyStrip_of_mem hm (hws _ (Or.inl rfl)))
      | (have hmem : '|' ∈ pyStrip s := mem_pyStrip_of_mem hm (hws _ (Or.inr (Or.inl rfl))))
      | (have hmem : backtick ∈ pyStrip s := mem_pyStrip_of_mem hm (hws _ (Or.inr (Or.inr rfl))))
      have hne : ¬(pyStrip s = []) := fun hz => by
        rw [hz] at hmem; cases hmem
      rw [validateCommand, validateCore, if_neg hne, if_pos (by simp [hmem])]
    }
  · intro s a r heq hlast hr
    have hamp_s : hasLoneAmp s = true := (hasLoneAmp_iff s).mpr ⟨a, r, heq, hlast, hr⟩
    have hmem : '&' ∈ s := by
      rw [heq]
      exact List.mem_append_right _ (List.mem_cons_self _ _)
    have hne : ¬(pyStrip s = []) := fun hz => by
      have := mem_pyStrip_of_mem hmem (by decide)
      rw [hz] at this; cases this
    have hamp : hasLoneAmp (pyStrip s) = true := by
      rw [hasLoneAmp_pyStrip]; exact hamp_s
    rw [validateCommand, validateCore, if_neg hne]
    by_cases hmc : ((pyStrip s).contains ';' || (pyStrip s).contains '|' ||
        (pyStrip s).contains backtick) = true
    · rw [if_pos hmc]
    · rw [if_neg hmc, if_pos hamp]
  · intro s h1 h2 h3 hdbl hbad
    have hs1 : ';' ∉ pyStrip s := fun hm => h1 (pyStrip_sub hm)
    have hs2 : '|' ∉ pyStrip s := fun hm => h2 (pyStrip_sub hm)
    have hs3 : backtick ∉ pyStrip s := fun hm => h3 (pyStrip_sub hm)
    have hamp : hasLoneAmp s = false := by
      cases hla : hasLoneAmp s with
      | false => rfl
      | true =>
        obtain ⟨a, r, heq, hlast, hr⟩ := (hasLoneAmp_iff s).mp hla
        rcases hdbl a r heq with hx | hx
        · exact absurd hx hlast
        · exact absurd hx hr
    have hamp' : hasLoneAmp (pyStrip s) = false := by
      rw [hasLoneAmp_pyStrip]; exact hamp
    rw [validateCommand, validateCore] at hbad
    by_cases hz : pyStrip s = []
    · rw [if_pos hz] at hbad; cases hbad
    · rw [if_neg hz,
        if_neg (fun hcx => by
          simp only [Bool.or_eq_true] at hcx
          rcases hcx with (h | h) | h
          · exact hs1 (by simpa using h)
          · exact hs2 (by simpa using h)
          · exact hs3 (by simpa using h)),
        if_neg (by simp [hamp'])] at hbad
      split at hbad
      · cases hbad
      · split at hbad
        · cases hbad
        · split at hbad
          · rename_i e hgo
            rcases splitGo_err hgo with rfl | rfl | rfl <;> cases hbad
          · split at hbad
            · rename_i e hcheck
              rw [checkSegs_err hcheck] at hbad
              cases hbad
            · cases hbad

/-- Witness for C2: the three parts applied to `ls; x` (semicolon), `a& b`
(lone `&`) and `ls -la` (no forbidden characters). -/
theorem metacharacter_rejection_witness :
    validateCommand (strL "ls; x") = .error .forbiddenMetacharacter ∧
    validateCommand (strL "a& b") = .error .forbiddenMetacharacter ∧
    validateCommand (strL "ls -la") ≠ .error .forbiddenMetacharacter :=
  ⟨metacharacter_rejection.1 (strL "ls; x") (Or.inl (by decide)),
   metacharacter_rejection.2.1 (strL "a& b") (strL "a") (strL " b")
     (by decide) (by decide) (by decide),
   metacharacter_rejection.2.2 (strL "ls -la") (by decide) (by decide) (by decide)
     (fun a r heq => absurd
       (show '&' ∈ strL "ls -la" by
         rw [heq]; exact List.mem_append_right _ (List.mem_cons_self _ _))
       (by decide))⟩

/-! ### Helper lemmas about the connection-spec stages -/

theorem takeWhile_middle {p : Char → Bool} :
    ∀ (u : List Char) (x : Char) (t : List Char),
      (∀ a ∈ u, p a = true) → p x = false → (u ++ x :: t).takeWhile p = u := by
  intro u x t
  induction u with
  | nil =>
    intro _ hx
    rw [List.nil_append, List.takeWhile_cons, if_neg (by simp [hx])]
  | cons a u' ih =>
    intro hall hx
    rw [List.cons_append, List.takeWhile_cons,
      if_pos (by simp [hall a (List.mem_cons_self a u')]),
      ih (fun b hb => hall b (List.mem_cons_of_mem a hb)) hx]

theorem dropWhile_middle {p : Char → Bool} :
    ∀ (u : List Char) (x : Char) (t : List Char),
      (∀ a ∈ u, p a = true) → p x = false → (u ++ x :: t).dropWhile p = x :: t := by
  intro u x t
  induction u with
  | nil =>
    intro _ hx
    rw [List.nil_append, List.dropWhile_cons, if_neg (by simp [hx])]
  | cons a u' ih =>
    intro hall hx
    rw [List.cons_append, List.dropWhile_cons,
      if_pos (by simp [hall a (List.mem_cons_self a u')]),
      ih (fun b hb => hall b (List.mem_cons_of_mem a hb)) hx]

theorem countOcc_zero {c : Char} {l : List Char} (h : c ∉ l) : countOcc c l = 0 := by
  rw [countOcc, List.length_eq_zero, List.filter_eq_nil_iff]
  intro a ha
  simp only [decide_eq_true_eq]
  intro hac
  exact h (hac ▸ ha)

theorem countOcc_middle {c : Char} {u t : List Char} (hu : c ∉ u) (ht : c ∉ t) :
    countOcc c (u ++ c :: t) = 1 := by
  have h1 : u.filter (fun a => a = c) = [] := by
    rw [List.filter_eq_nil_iff]
    intro a ha
    simp only [decide_eq_true_eq]
    intro hac
    exact hu (hac ▸ ha)
  have h2 : t.filter (fun a => a = c) = [] := by
    rw [List.filter_eq_nil_iff]
    intro a ha
    simp only [decide_eq_true_eq]
    intro hac
    exact ht (hac ▸ ha)
  rw [countOcc, List.filter_append, h1]
  simp [List.filter_cons, h2]

theorem startsWithSshScheme_slash {l : List Char}
    (h : startsWithSshScheme l = true) : '/' ∈ l := by
  unfold startsWithSshScheme at h
  split at h
  · simp
  · cases h

theorem containsCSS_slash : ∀ {l : List Char}, containsCSS l = true → '/' ∈ l := by
  intro l
  induction l with
  | nil => intro h; cases h
  | cons c rest ih =>
    intro h
    rw [containsCSS] at h
    split at h
    · rename_i hc
      have : '/' ∈ rest := by
        have ht := hc.2
        cases rest with
        | nil => cases ht
        | cons d rest' =>
          have hd : d = '/' := by
            have := congrArg List.head? ht
            simpa using this
          rw [hd]
          exact List.mem_cons_self _ _
      exact List.mem_cons_of_mem c this
    · exact List.mem_cons_of_mem c (ih h)

theorem stripScheme_id {l : List Char} (h : '/' ∉ l) : stripScheme l = .ok l := by
  rw [stripScheme, if_neg (fun hs => h (startsWithSshScheme_slash hs)),
    if_neg (fun hs => h (containsCSS_slash hs))]

theorem stripPath_id {l : List Char} (h : '/' ∉ l) : stripPath l = .ok l := by
  rw [stripPath, if_neg]
  intro hc
  exact h (by simpa using hc)

theorem splitUser_none {l : List Char} (h : '@' ∉ l) : splitUser l = .ok (none, l) := by
  rw [splitUser, if_neg]
  intro hc
  exact h (by simpa using hc)

theorem splitUser_some (u t : List Char) (hu : '@' ∉ u)
    (hsu : pyStrip u ≠ []) (hst : pyStrip t ≠ []) :
    splitUser (u ++ '@' :: t) = .ok (some (pyStrip u), pyStrip t) := by
  have hmem : (u ++ '@' :: t).contains '@' = true :=
    contains_true_of_mem (List.mem_append_right _ (List.mem_cons_self _ _))
  have htw : (u ++ '@' :: t).takeWhile (fun c => c ≠ '@') = u :=
    takeWhile_middle u '@' t
      (fun a ha => by simp; intro hac; exact hu (hac ▸ ha)) (by simp)
  have hdw : (u ++ '@' :: t).dropWhile (fun c => c ≠ '@') = '@' :: t :=
    dropWhile_middle u '@' t
      (fun a ha => by simp; intro hac; exact hu (hac ▸ ha)) (by simp)
  rw [splitUser, if_pos hmem]
  simp only [htw, hdw, List.drop_succ_cons, List.drop_zero]
  rw [if_neg hsu, if_neg hst]

theorem parseHostPort_noColon {l : List Char} (hh : l.head? ≠ some '[')
    (hc : ':' ∉ l) : parseHostPort l = .ok (l, none) := by
  rw [parseHostPort, if_neg hh, if_neg]
  rw [countOcc_zero hc]
  simp

theorem parseHostPort_hostColonPort (hpart p : List Char)
    (hch : ':' ∉ hpart) (hcp : ':' ∉ p) (hbr : '[' ∉ hpart)
    (hsh : pyStrip hpart ≠ []) (hsp : pyStrip p ≠ []) :
    parseHostPort (hpart ++ ':' :: p) =
      (match pyInt (pyStrip p) with
       | none => .error .invalidPort
       | some v => .ok (pyStrip hpart, some v)) := by
  have hhead : (hpart ++ ':' :: p).head? ≠ some '[' := by
    cases hpart with
    | nil => simp
    | cons c rest =>
      simp only [List.cons_append, List.head?]
      intro hcc
      have : c = '[' := by simpa using hcc
      exact hbr (this ▸ List.mem_cons_self c rest)
  have hcount : countOcc ':' (hpart ++ ':' :: p) = 1 := countOcc_middle hch hcp
  have htw : (hpart ++ ':' :: p).takeWhile (fun c => c ≠ ':') = hpart :=
    takeWhile_middle hpart ':' p
      (fun a ha => by simp; intro hac; exact hch (hac ▸ ha)) (by simp)
  have hdw : (hpart ++ ':' :: p).dropWhile (fun c => c ≠ ':') = ':' :: p :=
    dropWhile_middle hpart ':' p
      (fun a ha => by simp; intro hac; exact hch (hac ▸ ha)) (by simp)
  rw [parseHostPort, if_neg hhead, if_pos hcount]
  simp only [htw, hdw, List.drop_succ_cons, List.drop_zero]
  rw [if_neg hsh, if_neg hsp]

theorem parseHostPort_bracket_noClose {l : List Char} (hh : l.head? = some '[')
    (hnc : ']' ∉ l) : parseHostPort l = .error .invalidIPv6 := by
  have hnil : (l.drop 1).dropWhile (fun c => c ≠ ']') = [] := by
    rw [List.dropWhile_eq_nil_iff]
    intro a ha
    simp only [decide_eq_true_eq]
    intro hac
    exact hnc (hac ▸ (List.drop_subset 1 l) ha)
  rw [parseHostPort, if_pos hh]
  simp only [hnil]

theorem isDigitCh_ne {c : Char} (h : isDigitCh c = true) :
    pyWs c = false ∧ c ≠ '@' ∧ c ≠ '/' ∧ c ≠ ':' ∧ c ≠ '[' ∧ c ≠ ']' ∧
      c ≠ '+' ∧ c ≠ '-' := by
  have hb : '0' ≤ c ∧ c ≤ '9' := by simpa [isDigitCh] using h
  refine ⟨?_, ?_, ?_, ?_, ?_, ?_, ?_, ?_⟩
  · cases hw : pyWs c with
    | false => rfl
    | true =>
      exfalso
      simp only [pyWs, decide_eq_true_eq] at hw
      rcases hw with rfl | rfl | rfl | rfl | rfl | rfl <;> exact absurd hb (by decide)
  all_goals (intro hc; rw [hc] at hb; exact absurd hb (by decide))

theorem pyInt_digits {p : List Char} (hne : p ≠ []) (hdig : p.all isDigitCh = true) :
    pyInt p = some ((digitsVal p : Nat) : Int) := by
  have hall : ∀ c ∈ p, isDigitCh c = true := by
    rw [List.all_eq_true] at hdig
    intro c hc
    simpa using hdig c hc
  have hws : ∀ c ∈ p, pyWs c = false := fun c hc => (isDigitCh_ne (hall c hc)).1
  rw [pyInt, pyStrip_eq_self_of hws]
  cases p with
  | nil => exact absurd rfl hne
  | cons c rest =>
    have hc := hall c (List.mem_cons_self c rest)
    split
    · rename_i ds heq
      exact absurd (List.cons.inj heq).1 (isDigitCh_ne hc).2.2.2.2.2.2.1
    · rename_i ds heq
      exact absurd (List.cons.inj heq).1 (isDigitCh_ne hc).2.2.2.2.2.2.2
    · rw [if_pos ⟨List.cons_ne_nil c rest, hdig⟩]

/-- Symbolic run of `SSHRunner.__init__` on a plain `host:port` string:
the embedded port always wins over the `port` argument. -/
theorem sshRunnerInit_hostport (hpart p user : List Char) (port0 : Int)
    (hne : hpart ≠ [])
    (hplain : ∀ c ∈ hpart, pyWs c = false ∧ c ≠ '@' ∧ c ≠ '/' ∧ c ≠ ':' ∧ c ≠ '[')
    (hpne : p ≠ []) (hdig : p.all isDigitCh = true)
    (hlo : 1 ≤ digitsVal p) (hhi : digitsVal p ≤ 65535)
    (huser : pyStrip user ≠ []) :
    sshRunnerInit (hpart ++ ':' :: p) user port0 =
      .ok ⟨hpart, ((digitsVal p : Nat) : Int), pyStrip user⟩ := by
  have hall : ∀ c ∈ p, isDigitCh c = true := by
    rw [List.all_eq_true] at hdig
    intro c hc
    simpa using hdig c hc
  have hrne : hpart ++ ':' :: p ≠ [] := by simp
  have hws : ∀ c ∈ hpart ++ ':' :: p, pyWs c = false := by
    intro c hc
    rcases List.mem_append.mp hc with h | h
    · exact (hplain c h).1
    · rcases List.mem_cons.mp h with rfl | h2
      · decide
      · exact (isDigitCh_ne (hall c h2)).1
  have hslash : '/' ∉ hpart ++ ':' :: p := by
    intro hc
    rcases List.mem_append.mp hc with h | h
    · exact (hplain _ h).2.2.1 rfl
    · rcases List.mem_cons.mp h with heq | h2
      · exact absurd heq (by decide)
      · exact (isDigitCh_ne (hall _ h2)).2.2.1 rfl
  have hat : '@' ∉ hpart ++ ':' :: p := by
    intro hc
    rcases List.mem_append.mp hc with h | h
    · exact (hplain _ h).2.1 rfl
    · rcases List.mem_cons.mp h with heq | h2
      · exact absurd heq (by decide)
      · exact (isDigitCh_ne (hall _ h2)).2.1 rfl
  have hstrip : pyStrip (hpart ++ ':' :: p) = hpart ++ ':' :: p :=
    pyStrip_eq_self_of hws
  have hch : ':' ∉ hpart := fun hc => (hplain _ hc).2.2.2.1 rfl
  have hcp : ':' ∉ p := fun hc => (isDigitCh_ne (hall _ hc)).2.2.2.1 rfl
  have hbr : '[' ∉ hpart := fun hc => (hplain _ hc).2.2.2.2 rfl
  have hsh : pyStrip hpart = hpart :=
    pyStrip_eq_self_of (fun c hc => (hplain c hc).1)
  have hsp : pyStrip p = p :=
    pyStrip_eq_self_of (fun c hc => (isDigitCh_ne (hall c hc)).1)
  have hparse : parseHostPort (hpart ++ ':' :: p) =
      .ok (hpart, some ((digitsVal p : Nat) : Int)) := by
    rw [parseHostPort_hostColonPort hpart p hch hcp hbr
      (by rw [hsh]; exact hne) (by rw [hsp]; exact hpne)]
    rw [hsp, pyInt_digits hpne hdig, hsh]
  have huserne : user ≠ [] := fun hu => huser (by rw [hu]; rfl)
  rw [sshRunnerInit, if_neg hrne, hstrip, sshStage1, if_neg hrne,
    stripScheme_id hslash, sshStage2, hstrip, sshStage3, if_neg hrne,
    stripPath_id hslash, sshStage4, splitUser_none hat, sshStage5,
    hparse, sshStage6, if_neg hne]
  show sshFinPort hpart ((digitsVal p : Nat) : Int) none user = _
  rw [sshFinPort, if_pos (by constructor <;> omega)]
  show sshFinUser hpart _ (if user = [] then [] else pyStrip user) = _
  rw [if_neg huserne, sshFinUser, if_neg huser]

/-- Symbolic run of `SSHRunner.__init__` on a plain host with no embedded
port or user: the `port` and `user` arguments are used. -/
theorem sshRunnerInit_plain (hpart user : List Char) (port0 : Int)
    (hne : hpart ≠ [])
    (hplain : ∀ c ∈ hpart, pyWs c = false ∧ c ≠ '@' ∧ c ≠ '/' ∧ c ≠ ':' ∧ c ≠ '[')
    (hlo : 1 ≤ port0) (hhi : port0 ≤ 65535)
    (huser : pyStrip user ≠ []) :
    sshRunnerInit hpart user port0 = .ok ⟨hpart, port0, pyStrip user⟩ := by
  have hws : ∀ c ∈ hpart, pyWs c = false := fun c hc => (hplain c hc).1
  have hstrip : pyStrip hpart = hpart := pyStrip_eq_self_of hws
  have hslash : '/' ∉ hpart := fun hc => (hplain _ hc).2.2.1 rfl
  have hat : '@' ∉ hpart := fun hc => (hplain _ hc).2.1 rfl
  have hch : ':' ∉ hpart := fun hc => (hplain _ hc).2.2.2.1 rfl
  have hhead : hpart.head? ≠ some '[' := by
    cases hpart with
    | nil => simp
    | cons c rest =>
      simp only [List.head?]
      intro hcc
      exact (hplain c (List.mem_cons_self c rest)).2.2.2.2 (by simpa using hcc)
  have huserne : user ≠ [] := fun hu => huser (by rw [hu]; rfl)
  rw [sshRunnerInit, if_neg hne, hstrip, sshStage1, if_neg hne,
    stripScheme_id hslash, sshStage2, hstrip, sshStage3, if_neg hne,
    stripPath_id hslash, sshStage4, splitUser_none hat, sshStage5,
    parseHostPort_noColon hhead hch, sshStage6, if_neg hne]
  show sshFinPort hpart port0 none user = _
  rw [sshFinPort, if_pos ⟨hlo, hhi⟩]
  show sshFinUser hpart _ (if user = [] then [] else pyStrip user) = _
  rw [if_neg huserne, sshFinUser, if_neg huser]

/-- Symbolic run of `SSHRunner.__init__` on a `user@host` string: the
embedded user always wins over the `user` argument. -/
theorem sshRunnerInit_userAtHost (u t user : List Char) (port0 : Int)
    (hune : u ≠ [])
    (huplain : ∀ c ∈ u, pyWs c = false ∧ c ≠ '@' ∧ c ≠ '/' ∧ c ≠ ':' ∧ c ≠ '[')
    (htne : t ≠ [])
    (htplain : ∀ c ∈ t, pyWs c = false ∧ c ≠ '@' ∧ c ≠ '/' ∧ c ≠ ':' ∧ c ≠ '[')
    (hlo : 1 ≤ port0) (hhi : port0 ≤ 65535) :
    sshRunnerInit (u ++ '@' :: t) user port0 = .ok ⟨t, port0, u⟩ := by
  have hrne : u ++ '@' :: t ≠ [] := by simp
  have hws : ∀ c ∈ u ++ '@' :: t, pyWs c = false := by
    intro c hc
    rcases List.mem_append.mp hc with h | h
    · exact (huplain c h).1
    · rcases List.mem_cons.mp h with rfl | h2
      · decide
      · exact (htplain c h2).1
  have hslash : '/' ∉ u ++ '@' :: t := by
    intro hc
    rcases List.mem_append.mp hc with h | h
    · exact (huplain _ h).2.2.1 rfl
    · rcases List.mem_cons.mp h with heq | h2
      · exact absurd heq (by decide)
      · exact (htplain _ h2).2.2.1 rfl
  have hstrip : pyStrip (u ++ '@' :: t) = u ++ '@' :: t := pyStrip_eq_self_of hws
  have huat : '@' ∉ u := fun hc => (huplain _ hc).2.1 rfl
  have hsu : pyStrip u = u := pyStrip_eq_self_of (fun c hc => (huplain c hc).1)
  have hst : pyStrip t = t := pyStrip_eq_self_of (fun c hc => (htplain c hc).1)
  have htch : ':' ∉ t := fun hc => (htplain _ hc).2.2.2.1 rfl
  have hthead : t.head? ≠ some '[' := by
    cases t with
    | nil => simp
    | cons c rest =>
      simp only [List.head?]
      intro hcc
      exact (htplain c (List.mem_cons_self c rest)).2.2.2.2 (by simpa using hcc)
  have hsplit : splitUser (u ++ '@' :: t) = .ok (some u, t) := by
    rw [splitUser_some u t huat (by rw [hsu]; exact hune) (by rw [hst]; exact htne),
      hsu, hst]
  rw [sshRunnerInit, if_neg hrne, hstrip, sshStage1, if_neg hrne,
    stripScheme_id hslash, sshStage2, hstrip, sshStage3, if_neg hrne,
    stripPath_id hslash, sshStage4, hsplit, sshStage5,
    parseHostPort_noColon hthead htch, sshStage6, if_neg htne]
  show sshFinPort t port0 (some u) user = _
  rw [sshFinPort, if_pos ⟨hlo, hhi⟩]
  show sshFinUser t _ u = _
  rw [sshFinUser, if_neg hune]

/-! ### Claims about the connection-spec resolver -/

/-- Claim C6: for every `host:port` host string (plain host, decimal port in
1..65535, exactly one colon), resolution succeeds with the embedded port and
the bare host, ignoring the explicit `port` argument; concretely,
`host:2222` with explicit port 22 resolves to port 2222, and an embedded
port outside 1..65535 is rejected with `InvalidPort`. -/
theorem embedded_port_resolution :
    (∀ (hpart p user : List Char) (port0 : Int),
      hpart ≠ [] →
      (∀ c ∈ hpart, pyWs c = false ∧ c ≠ '@' ∧ c ≠ '/' ∧ c ≠ ':' ∧ c ≠ '[') →
      p ≠ [] → p.all isDigitCh = true →
      1 ≤ digitsVal p → digitsVal p ≤ 65535 →
      pyStrip user ≠ [] →
      sshRunnerInit (hpart ++ ':' :: p) user port0 =
        .ok ⟨hpart, ((digitsVal p : Nat) : Int), pyStrip user⟩) ∧
    sshRunnerInit (strL "host:2222") (strL "root") 22 =
      .ok ⟨strL "host", 2222, strL "root"⟩ ∧
    sshRunnerInit (strL "host:99999") (strL "root") 22 = .error .invalidPort :=
  ⟨fun hpart p user port0 h1 h2 h3 h4 h5 h6 h7 =>
    sshRunnerInit_hostport hpart p user port0 h1 h2 h3 h4 h5 h6 h7,
   by decide, by decide⟩

/-- Witness for C6: the universal part applied to `host`/`2222` with an
explicit port argument 22 — the embedded 2222 wins. -/
theorem embedded_port_resolution_witness :
    sshRunnerInit (strL "host" ++ ':' :: strL "2222") (strL "root") 22 =
      .ok ⟨strL "host", ((digitsVal (strL "2222") : Nat) : Int), pyStrip (strL "root")⟩ :=
  embedded_port_resolution.1 (strL "host") (strL "2222") (strL "root") 22
    (by decide) (by decide) (by decide) (by decide) (by decide) (by decide) (by decide)

/-- Claim C8: a host string starting with `[` is parsed as a bracketed IPv6
literal: with no closing `]` resolution fails; blank bracket content fails
with `EmptyHost`; a non-`:port` remainder after `]` fails; a non-integer
port fails; and `[::1]:2222` resolves to host `::1` and port 2222. -/
theorem ipv6_bracket_parsing :
    (∀ (s user : List Char) (port : Int), s.head? = some '[' →
      (∀ c ∈ s, pyWs c = false) → '@' ∉ s → '/' ∉ s → ']' ∉ s →
      sshRunnerInit s user port = .error .invalidIPv6) ∧
    sshRunnerInit (strL "[]") (strL "root") 22 = .error .emptyHost ∧
    sshRunnerInit (strL "[::1]x") (strL "root") 22 = .error .invalidIPv6 ∧
    sshRunnerInit (strL "[::1]:ab") (strL "root") 22 = .error .invalidPort ∧
    sshRunnerInit (strL "[::1]:2222") (strL "root") 22 =
      .ok ⟨strL "::1", 2222, strL "root"⟩ := by
  refine ⟨?_, by decide, by decide, by decide, by decide⟩
  intro s user port hh hws hat hslash hnc
  have hne : s ≠ [] := by
    intro hz
    rw [hz] at hh
    cases hh
  have hstrip : pyStrip s = s := pyStrip_eq_self_of hws
  rw [sshRunnerInit, if_neg hne, hstrip, sshStage1, if_neg hne,
    stripScheme_id hslash, sshStage2, hstrip, sshStage3, if_neg hne,
    stripPath_id hslash, sshStage4, splitUser_none hat, sshStage5,
    parseHostPort_bracket_noClose hh hnc, sshStage6]

/-- Witness for C8: the universal part applied to the unterminated literal
`[::1`. -/
theorem ipv6_bracket_parsing_witness :
    sshRunnerInit (strL "[::1") (strL "root") 22 = .error .invalidIPv6 :=
  ipv6_bracket_parsing.1 (strL "[::1") (strL "root") 22 (by decide) (by decide)
    (by decide) (by decide) (by decide)

theorem takeWhile_sub {p : Char → Bool} {l : List Char} : l.takeWhile p ⊆ l := by
  intro c hc
  rw [← List.takeWhile_append_dropWhile p l]
  exact List.mem_append_left _ hc

theorem stripScheme_ok_sub {l m : List Char} (h : stripScheme l = .ok m) : m ⊆ l := by
  rw [stripScheme] at h
  split at h
  · cases h
    exact List.drop_subset 6 l
  · split at h
    · cases h
    · cases h
      exact fun c hc => hc

theorem stripPath_ok_noslash {l m : List Char} (h : stripPath l = .ok m) :
    '/' ∉ m := by
  simp only [stripPath] at h
  split at h
  · split at h
    · cases h
    · cases h
      intro hc
      have h2 := List.mem_takeWhile_imp (pyStrip_sub hc)
      simp at h2
  · rename_i hcont
    cases h
    intro hc
    exact hcont (contains_true_of_mem hc)

theorem splitUser_ok_sub {l m : List Char} {du : Option (List Char)}
    (h : splitUser l = .ok (du, m)) : m ⊆ l := by
  simp only [splitUser] at h
  split at h
  · split at h
    · cases h
    · split at h
      · cases h
      · cases h
        intro c hc
        exact dropWhile_sub (List.drop_subset 1 _ (pyStrip_sub hc))
  · cases h
    exact fun c hc => hc

theorem parseHostPort_ok_sub {l ph : List Char} {dp : Option Int}
    (h : parseHostPort l = .ok (ph, dp)) : ph ⊆ l := by
  have hbrsub : pyStrip ((l.drop 1).takeWhile (fun c => c ≠ ']')) ⊆ l :=
    fun c hc => List.drop_subset 1 l (takeWhile_sub (pyStrip_sub hc))
  simp only [parseHostPort] at h
  split at h
  · split at h
    · cases h
    · split at h
      · cases h
      · split at h
        · cases h
          exact hbrsub
        · split at h
          · cases h
          · split at h
            · cases h
            · cases h
              exact hbrsub
        · cases h
  · split at h
    · split at h
      · cases h
      · split at h
        · cases h
        · split at h
          · cases h
          · cases h
            exact fun c hc => takeWhile_sub (pyStrip_sub hc)
    · cases h
      exact fun c hc => hc

/-- Claim C7 (amended): a successfully resolved canonical host is non-empty
and contains no `/` (hence carries no path component and no scheme
residue); it can however still contain `@`, `:`, `[` and `]` (multi-colon
or repeated-`@` inputs pass through verbatim, and IPv6 literals keep their
colons). -/
theorem resolved_host_invariant (host user : List Char) (port : Int)
    (r : RunnerConn) (h : sshRunnerInit host user port = .ok r) :
    r.host ≠ [] ∧ '/' ∉ r.host := by
  rw [sshRunnerInit] at h
  generalize (if host = [] then [] else pyStrip host) = raw0 at h
  rw [sshStage1] at h
  split at h
  · cases h
  · cases hsc : stripScheme raw0 with
    | error e => rw [hsc, sshStage2] at h; cases h
    | ok r1 =>
      rw [hsc, sshStage2, sshStage3] at h
      split at h
      · cases h
      · cases hsp : stripPath (pyStrip r1) with
        | error e => rw [hsp, sshStage4] at h; cases h
        | ok r2 =>
          rw [hsp, sshStage4] at h
          have hr2 : '/' ∉ r2 := stripPath_ok_noslash hsp
          cases hsu : splitUser r2 with
          | error e => rw [hsu, sshStage5] at h; cases h
          | ok pr =>
            obtain ⟨du, r3⟩ := pr
            rw [hsu, sshStage5] at h
            have hr3 : '/' ∉ r3 := fun hc => hr2 (splitUser_ok_sub hsu hc)
            cases hpp : parseHostPort r3 with
            | error e =>
              rw [hpp] at h
              replace h : (Except.error e : Except SSHErr RunnerConn) = Except.ok r := h
              cases h
            | ok pd =>
              obtain ⟨ph, dp⟩ := pd
              rw [hpp] at h
              replace h : (if ph = [] then (Except.error SSHErr.emptyHost : Except SSHErr RunnerConn)
                  else sshFinPort ph (dp.getD port) du user) = Except.ok r := h
              split at h
              · cases h
              · rename_i hphne
                have hph : '/' ∉ ph := fun hc => hr3 (parseHostPort_ok_sub hpp hc)
                rw [sshFinPort] at h
                split at h
                · rw [sshFinUser] at h
                  generalize du.getD (if user = [] then [] else pyStrip user) = fu at h
                  split at h
                  · cases h
                  · cases h
                    exact ⟨hphne, hph⟩
                · cases h

/-- Claim C7 counterexample: the input `x@y@[::1]:22` resolves successfully
(user `x`, default port), yet its canonical host `y@[::1]:22` contains
`@`, `:`, `[` and `]` all at once — the claimed character exclusions do not
hold for the resolved host. -/
theorem resolved_host_invariant_counterexample :
    sshRunnerInit (strL "x@y@[::1]:22") (strL "root") 22 =
      .ok ⟨strL "y@[::1]:22", 22, strL "x"⟩ ∧
    '@' ∈ strL "y@[::1]:22" ∧ ':' ∈ strL "y@[::1]:22" ∧
    '[' ∈ strL "y@[::1]:22" ∧ ']' ∈ strL "y@[::1]:22" := by decide

/-- Witness for C7: the amended invariant applied to the resolution of the
plain host `host`. -/
theorem resolved_host_invariant_witness :
    (⟨strL "host", 22, strL "root"⟩ : RunnerConn).host ≠ [] ∧
      '/' ∉ (⟨strL "host", 22, strL "root"⟩ : RunnerConn).host :=
  resolved_host_invariant (strL "host") (strL "root") 22
    ⟨strL "host", 22, strL "root"⟩ (by decide)

/-- Claim C4 (amended): the credential actually used for authentication is
the unique first match of: any key path (explicit field, then the two
environment variables, then the default key file on disk), else any key
data (explicit field, then environment), else any password (explicit field,
then the two environment variables), else none — i.e. every key-path
source, including environment-derived ones, outranks explicit key data;
credential sources are never combined. -/
theorem credential_precedence (spec : SSHSpec) (env : EnvMap)
    (fx : String → Bool) (c : ConnFields)
    (h : resolveSSHConnection spec env fx = .ok c) :
    effectiveCred c = credPrecedence spec env fx := by
  simp only [resolveSSHConnection] at h
  split at h
  · cases h
  · split at h
    · cases h
    · cases h
      cases hkp : firstNonEmptyStr [spec.key_path, envNonEmpty env "DEFAULT_SSH_KEY_PATH",
          envNonEmpty env "PVE_SSH_KEY_PATH"] with
      | some p0 => simp [effectiveCred, credPrecedence, hkp]
      | none =>
        cases hfx : fx "/keys/pve_id_rsa" with
        | true => simp [effectiveCred, credPrecedence, hkp, hfx]
        | false =>
          cases hkd : firstNonEmptyStr [spec.key_data_b64,
              envNonEmpty env "DEFAULT_SSH_KEY_B64"] with
          | some d0 => simp [effectiveCred, credPrecedence, hkp, hfx, hkd]
          | none =>
            cases hpw : firstNonEmptyStr [spec.password,
                envNonEmpty env "DEFAULT_SSH_PASSWORD",
                envNonEmpty env "PVE_SSH_PASSWORD"] with
            | some w0 => simp [effectiveCred, credPrecedence, hkp, hfx, hkd, hpw]
            | none => simp [effectiveCred, credPrecedence, hkp, hfx, hkd, hpw]

/-- Claim C4 counterexample: a request supplying explicit key data but no
explicit key path, in an environment configuring `DEFAULT_SSH_KEY_PATH`,
authenticates with the environment-derived key path — not with the explicit
key data as the claimed precedence (explicit key data over environment key
path) requires. -/
theorem credential_precedence_counterexample :
    (resolveSSHConnection
        ⟨some (strL "h"), none, none, none, some (strL "KD"), none, none⟩
        (fun n => if n = "DEFAULT_SSH_KEY_PATH" then some (strL "/env/key") else none)
        (fun _ => false)).map effectiveCred = .ok (.keyPath (strL "/env/key")) ∧
    Cred.keyPath (strL "/env/key") ≠ Cred.keyData (strL "KD") := by decide

/-- Witness for C4: the amended precedence applied to a request with no
credential sources at all. -/
theorem credential_precedence_witness :
    effectiveCred ⟨strL "h", strL "root", 22, none, none, none, false⟩ =
      credPrecedence ⟨some (strL "h"), none, none, none, none, none, none⟩
        (fun _ => none) (fun _ => false) :=
  credential_precedence ⟨some (strL "h"), none, none, none, none, none, none⟩
    (fun _ => none) (fun _ => false)
    ⟨strL "h", strL "root", 22, none, none, none, false⟩ (by decide)

theorem firstNonEmptyStr_some : ∀ {l : List (Option (List Char))} {v : List Char},
    firstNonEmptyStr l = some v → pyStrip v = v ∧ v ≠ [] := by
  intro l
  induction l with
  | nil => intro v h; cases h
  | cons x rest ih =>
    intro v h
    cases x with
    | none =>
      rw [firstNonEmptyStr] at h
      exact ih h
    | some w =>
      rw [firstNonEmptyStr] at h
      split at h
      · exact ih h
      · rename_i hne
        cases h
        exact ⟨pyStrip_idem w, hne⟩

theorem firstNonEmptyStr_ne_none {d : List Char} (hd : pyStrip d ≠ []) :
    ∀ l : List (Option (List Char)), firstNonEmptyStr (l ++ [some d]) ≠ none := by
  intro l
  induction l with
  | nil =>
    rw [List.nil_append, firstNonEmptyStr, if_neg hd]
    simp
  | cons x rest ih =>
    cases x with
    | none =>
      rw [List.cons_append, firstNonEmptyStr]
      exact ih
    | some w =>
      rw [List.cons_append, firstNonEmptyStr]
      split
      · exact ih
      · simp

theorem userPrecedence_facts (spec : SSHSpec) (env : EnvMap) :
    pyStrip (userPrecedence spec env) = userPrecedence spec env ∧
      userPrecedence spec env ≠ [] := by
  rw [userPrecedence]
  cases hf : firstNonEmptyStr [spec.user, envNonEmpty env "DEFAULT_SSH_USER",
      envNonEmpty env "PVE_SSH_USER", some (strL "root")] with
  | none =>
    exact absurd hf (firstNonEmptyStr_ne_none (by decide)
      [spec.user, envNonEmpty env "DEFAULT_SSH_USER", envNonEmpty env "PVE_SSH_USER"])
  | some v => simpa using firstNonEmptyStr_some hf

theorem resolveSSHConnection_shape (spec : SSHSpec) (env : EnvMap)
    (fx : String → Bool) (hostv : List Char) (port : Int)
    (hhost : spec.host = some hostv) (hsv : pyStrip hostv = hostv)
    (hne : hostv ≠ []) (hport : spec.port = some port) :
    resolveSSHConnection spec env fx = .ok ⟨hostv, userPrecedence spec env, port,
      (match firstNonEmptyStr [spec.key_path, envNonEmpty env "DEFAULT_SSH_KEY_PATH",
          envNonEmpty env "PVE_SSH_KEY_PATH"] with
       | some p => some p
       | none => if fx "/keys/pve_id_rsa" then some (strL "/keys/pve_id_rsa") else none),
      firstNonEmptyStr [spec.key_data_b64, envNonEmpty env "DEFAULT_SSH_KEY_B64"],
      firstNonEmptyStr [spec.password, envNonEmpty env "DEFAULT_SSH_PASSWORD",
        envNonEmpty env "PVE_SSH_PASSWORD"],
      (match spec.strict_host_key with
       | some b => b
       | none => boolEnv env "DEFAULT_SSH_STRICT_HOST_KEY" false)⟩ := by
  have hfh : firstNonEmptyStr [spec.host, envNonEmpty env "DEFAULT_SSH_HOST",
      envNonEmpty env "PVE_SSH_HOST"] = some hostv := by
    rw [hhost, firstNonEmptyStr, hsv, if_neg hne]
  have hrp : resolvePort spec env = .ok port := by
    rw [resolvePort, hport]
  simp only [resolveSSHConnection, hfh, hrp, userPrecedence]

theorem fullResolve_userAtHost (spec : SSHSpec) (env : EnvMap) (fx : String → Bool)
    (u t : List Char) (port : Int)
    (hhost : spec.host = some (u ++ '@' :: t)) (hport : spec.port = some port)
    (hune : u ≠ [])
    (huplain : ∀ c ∈ u, pyWs c = false ∧ c ≠ '@' ∧ c ≠ '/' ∧ c ≠ ':' ∧ c ≠ '[')
    (htne : t ≠ [])
    (htplain : ∀ c ∈ t, pyWs c = false ∧ c ≠ '@' ∧ c ≠ '/' ∧ c ≠ ':' ∧ c ≠ '[')
    (hlo : 1 ≤ port) (hhi : port ≤ 65535) :
    fullResolve spec env fx = .ok ⟨t, port, u⟩ := by
  have hws : ∀ c ∈ u ++ '@' :: t, pyWs c = false := by
    intro c hc
    rcases List.mem_append.mp hc with h | h
    · exact (huplain c h).1
    · rcases List.mem_cons.mp h with rfl | h2
      · decide
      · exact (htplain c h2).1
  have hsv : pyStrip (u ++ '@' :: t) = u ++ '@' :: t := pyStrip_eq_self_of hws
  have hne2 : u ++ '@' :: t ≠ [] := by simp
  rw [fullResolve,
    resolveSSHConnection_shape spec env fx _ port hhost hsv hne2 hport,
    resolveToPipe]
  show runnerToPipe (sshRunnerInit (u ++ '@' :: t) (userPrecedence spec env) port) = _
  rw [sshRunnerInit_userAtHost u t _ port hune huplain htne htplain hlo hhi,
    runnerToPipe]

theorem fullResolve_plain (spec : SSHSpec) (env : EnvMap) (fx : String → Bool)
    (hv : List Char) (port : Int)
    (hhost : spec.host = some hv) (hport : spec.port = some port)
    (hne : hv ≠ [])
    (hplain : ∀ c ∈ hv, pyWs c = false ∧ c ≠ '@' ∧ c ≠ '/' ∧ c ≠ ':' ∧ c ≠ '[')
    (hlo : 1 ≤ port) (hhi : port ≤ 65535) :
    fullResolve spec env fx = .ok ⟨hv, port, userPrecedence spec env⟩ := by
  obtain ⟨hup1, hup2⟩ := userPrecedence_facts spec env
  have hsv : pyStrip hv = hv := pyStrip_eq_self_of (fun c hc => (hplain c hc).1)
  rw [fullResolve,
    resolveSSHConnection_shape spec env fx hv port hhost hsv hne hport,
    resolveToPipe]
  show runnerToPipe (sshRunnerInit hv (userPrecedence spec env) port) = _
  rw [sshRunnerInit_plain hv (userPrecedence spec env) port hne hplain hlo hhi
    (by rw [hup1]; exact hup2), hup1, runnerToPipe]

/-- Claim C5 (amended): a user embedded as `user@` in the host string always
wins, even over a non-empty explicit user argument; only when the host
carries no embedded user does the precedence explicit field > environment
default > literal `root` (the `userPrecedence` chain) apply. -/
theorem user_precedence :
    (∀ (spec : SSHSpec) (env : EnvMap) (fx : String → Bool) (u t : List Char)
       (port : Int),
      spec.host = some (u ++ '@' :: t) → spec.port = some port →
      u ≠ [] → (∀ c ∈ u, pyWs c = false ∧ c ≠ '@' ∧ c ≠ '/' ∧ c ≠ ':' ∧ c ≠ '[') →
      t ≠ [] → (∀ c ∈ t, pyWs c = false ∧ c ≠ '@' ∧ c ≠ '/' ∧ c ≠ ':' ∧ c ≠ '[') →
      1 ≤ port → port ≤ 65535 →
      fullResolve spec env fx = .ok ⟨t, port, u⟩) ∧
    (∀ (spec : SSHSpec) (env : EnvMap) (fx : String → Bool) (hv : List Char)
       (port : Int),
      spec.host = some hv → spec.port = some port →
      hv ≠ [] → (∀ c ∈ hv, pyWs c = false ∧ c ≠ '@' ∧ c ≠ '/' ∧ c ≠ ':' ∧ c ≠ '[') →
      1 ≤ port → port ≤ 65535 →
      fullResolve spec env fx = .ok ⟨hv, port, userPrecedence spec env⟩) :=
  ⟨fun spec env fx u t port h1 h2 h3 h4 h5 h6 h7 h8 =>
    fullResolve_userAtHost spec env fx u t port h1 h2 h3 h4 h5 h6 h7 h8,
   fun spec env fx hv port h1 h2 h3 h4 h5 h6 =>
    fullResolve_plain spec env fx hv port h1 h2 h3 h4 h5 h6⟩

/-- Claim C5 counterexample: resolving host `alice@h` together with the
non-empty explicit user `bob` yields user `alice` — the embedded user wins
over the explicit argument, contradicting the claimed precedence. -/
theorem user_precedence_counterexample :
    fullResolve ⟨some (strL "alice@h"), some (strL "bob"), none, none, none, none, none⟩
      (fun _ => none) (fun _ => false) = .ok ⟨strL "h", 22, strL "alice"⟩ ∧
    strL "alice" ≠ strL "bob" := by decide

/-- Witness for C5: both precedence branches at concrete inputs — `alice@h`
with explicit `bob` resolves to `alice`; plain `h` with explicit `bob`
resolves through the `userPrecedence` chain. -/
theorem user_precedence_witness :
    fullResolve ⟨some (strL "alice@h"), some (strL "bob"), some 22, none, none, none, none⟩
      (fun _ => none) (fun _ => false) = .ok ⟨strL "h", 22, strL "alice"⟩ ∧
    fullResolve ⟨some (strL "h"), some (strL "bob"), some 22, none, none, none, none⟩
      (fun _ => none) (fun _ => false) =
      .ok ⟨strL "h", 22, userPrecedence
        ⟨some (strL "h"), some (strL "bob"), some 22, none, none, none, none⟩
        (fun _ => none)⟩ :=
  ⟨user_precedence.1 _ _ _ (strL "alice") (strL "h") 22 (by decide) (by decide)
    (by decide) (by decide) (by decide) (by decide) (by decide) (by decide),
   user_precedence.2 _ _ _ (strL "h") 22 (by decide) (by decide) (by decide)
    (by decide) (by decide) (by decide)⟩

end Controller
